import Mathlib

/-!
Verification of the Sophia optimizer family implemented in
src/t5/t5/utils/sophia.py.  The file models the four optimizer classes
SophiaG, SophiaG_RMS, SophiaG_OG and SophiaG_RMSD, their update_hessian
and step methods, the per-parameter update kernels and the constructor
validation.  Tensors are modelled as flat lists of real numbers and
in-place tensor mutation becomes explicit state passing.  Only the
non-capturable code path is modelled; the capturable branch of each
kernel computes the same arithmetic with device-resident scalars.
-/

namespace Sophia

noncomputable section

/-- A tensor, modelled as the flat list of its real entries. -/
abbrev Tensor := List ℝ

/-- Model of the helper at line 195: tensor.norm(2) / tensor.numel() ** 0.5. -/
def rmsOf (t : Tensor) : ℝ :=
  Real.sqrt ((t.map fun x => x * x).sum) / Real.sqrt (t.length : ℝ)

/-- Model of torch.zeros_like for a given tensor. -/
def zerosLike (t : Tensor) : Tensor := t.map fun _ => 0

/-- Gradient sign flip applied when the maximize flag is set (line 217). -/
def negIf (b : Bool) (g : Tensor) : Tensor := if b then g.map (fun x => -x) else g

/-- Decoupled weight decay, line 235: param.mul_(1 - lr * weight_decay). -/
def decayParam (lr wd : ℝ) (p : Tensor) : Tensor := p.map fun x => x * (1 - lr * wd)

/-- Momentum EMA, line 238: exp_avg.mul_(beta).add_(g, alpha = 1 - beta). -/
def emaVec (beta : ℝ) (m g : Tensor) : Tensor :=
  List.zipWith (fun mi gi => beta * mi + (1 - beta) * gi) m g

/-- Elementwise clipped ratio, line 253: the quotient of the momentum
magnitude by rho * bs * hessian + 1e-15, clamped above by the given bound. -/
def ratioVec (rho bs bound : ℝ) (m h : Tensor) : Tensor :=
  List.zipWith (fun mi hi => min (|mi| / (rho * bs * hi + 1e-15)) bound) m h

/-- Signed update, line 254: param.addcmul_(m.sign(), ratio, value = -c),
that is param - c * sign(m) * ratio elementwise. -/
def signedStep (c : ℝ) (p m r : Tensor) : Tensor :=
  List.zipWith (fun pi sr => pi - c * sr) p
    (List.zipWith (fun mi ri => Real.sign mi * ri) m r)

/-- Hessian EMA, line 83: hessian.mul_(beta2).addcmul_(grad, grad,
value = 1 - beta2). -/
def hessianEMA (beta2 : ℝ) (h g : Tensor) : Tensor :=
  List.zipWith (fun hi gi => hi * beta2 + (1 - beta2) * (gi * gi)) h g

/-- Per-group hyperparameters shared by the four variants. -/
structure Hyper where
  lr : ℝ
  beta1 : ℝ
  beta2 : ℝ
  rho : ℝ
  weight_decay : ℝ
  maximize : Bool

/-- Optimizer state of one parameter as consumed by the base kernel. -/
structure BaseState where
  step : ℝ
  exp_avg : Tensor
  hessian : Tensor

/-- Model of _single_tensor_sophiag (lines 199 to 254) for one parameter.
The step size is lr * max(1e-3, rms of the decayed parameter) and the
ratio is clamped above by 1. -/
def single_tensor_sophiag (hp : Hyper) (bs : ℝ) (param grad : Tensor)
    (st : BaseState) : Tensor × BaseState :=
  let g := negIf hp.maximize grad
  let step_t := st.step + 1
  let p := decayParam hp.lr hp.weight_decay param
  let m := emaVec hp.beta1 st.exp_avg g
  let step_size := hp.lr * max 1e-3 (rmsOf p)
  let r := ratioVec hp.rho bs 1 m st.hessian
  (signedStep step_size p m r, ⟨step_t, m, st.hessian⟩)

/-- Optimizer state of one parameter as consumed by the rms-carrying
kernels (RMS, OG and RMSD variants). -/
structure RmsState where
  step : ℝ
  rms : Tensor
  exp_avg : Tensor
  hessian : Tensor

/-- Model of _single_tensor_sophiag_rms (lines 448 to 509) for one
parameter.  The update coefficient is plain lr (step_size_neg = -lr); the
rms-derived scalar max(1e-5, rms of the decayed parameter) is written to
the rms buffer and used as the clamp upper bound of the ratio. -/
def single_tensor_sophiag_rms (hp : Hyper) (bs : ℝ) (param grad : Tensor)
    (st : RmsState) : Tensor × RmsState :=
  let g := negIf hp.maximize grad
  let step_t := st.step + 1
  let p := decayParam hp.lr hp.weight_decay param
  let m := emaVec hp.beta1 st.exp_avg g
  let step_size_rel := max 1e-5 (rmsOf p)
  let rms' := st.rms.map fun x => x - x + step_size_rel
  let r := ratioVec hp.rho bs step_size_rel m st.hessian
  (signedStep hp.lr p m r, ⟨step_t, rms', m, st.hessian⟩)

/-- Model of _single_tensor_sophiag_og (lines 703 to 764) for one
parameter.  As in the rms kernel the update coefficient is plain lr and
the rms buffer receives max(1e-5, rms of the decayed parameter), but the
ratio is clamped above by 1. -/
def single_tensor_sophiag_og (hp : Hyper) (bs : ℝ) (param grad : Tensor)
    (st : RmsState) : Tensor × RmsState :=
  let g := negIf hp.maximize grad
  let step_t := st.step + 1
  let p := decayParam hp.lr hp.weight_decay param
  let m := emaVec hp.beta1 st.exp_avg g
  let step_size_rel := max 1e-5 (rmsOf p)
  let rms' := st.rms.map fun x => x - x + step_size_rel
  let r := ratioVec hp.rho bs 1 m st.hessian
  (signedStep hp.lr p m r, ⟨step_t, rms', m, st.hessian⟩)

/-- Model of _single_tensor_sophiag_rmsd (lines 959 to 1021) for one
parameter: the dedicated dual-EMA kernel.  A fast auxiliary momentum
exp_avg.mul(0.95).add(g, alpha = 0.05) is used for the ratio and the sign
of the update, while the slow beta1 EMA is stored in the momentum buffer. -/
def single_tensor_sophiag_rmsd (hp : Hyper) (bs : ℝ) (param grad : Tensor)
    (st : RmsState) : Tensor × RmsState :=
  let g := negIf hp.maximize grad
  let step_t := st.step + 1
  let p := decayParam hp.lr hp.weight_decay param
  let m1 := List.zipWith (fun mi gi => mi * 0.95 + 0.05 * gi) st.exp_avg g
  let m := emaVec hp.beta1 st.exp_avg g
  let step_size_rel := max 1e-5 (rmsOf p)
  let rms' := st.rms.map fun x => x - x + step_size_rel
  let r := ratioVec hp.rho bs step_size_rel m1 st.hessian
  (signedStep hp.lr p m1 r, ⟨step_t, rms', m, st.hessian⟩)

/-- A gradient tensor together with its sparsity flag (grad.is_sparse). -/
structure Grad where
  sparse : Bool
  values : Tensor

/-- Stored per-parameter state of SophiaG.  The hessian entry may be
absent after a legacy restore and is then lazily backfilled. -/
structure StoredBase where
  step : ℝ
  exp_avg : Tensor
  hessian : Option Tensor

/-- A parameter tracked by SophiaG: its value, its current gradient (none
models p.grad is None) and its lazily created state. -/
structure TrackedBase where
  value : Tensor
  grad : Option Grad
  st : Option StoredBase

/-- State initialization and hessian backfill of SophiaG (lines 110 to
126): a fresh state gets a zero step counter and zero-filled exp_avg and
hessian buffers shaped like the parameter; a state missing its hessian
gets it backfilled to zeros. -/
def ensureBase (p : Tensor) (s : Option StoredBase) : StoredBase :=
  let s0 := s.getD ⟨0, zerosLike p, some (zerosLike p)⟩
  ⟨s0.step, s0.exp_avg, some (s0.hessian.getD (zerosLike p))⟩

/-- Model of SophiaG.update_hessian (lines 56 to 83) for one parameter:
skip when the gradient is absent, otherwise lazily initialize the state,
backfill a missing hessian, and apply the hessian EMA.  There is no
sparse-gradient check on this path. -/
def sophiaGUpdateHessianParam (beta2 : ℝ) (tp : TrackedBase) : TrackedBase :=
  match tp.grad with
  | none => tp
  | some g =>
    let s := ensureBase tp.value tp.st
    ⟨tp.value, tp.grad,
      some ⟨s.step, s.exp_avg,
        some (hessianEMA beta2 (s.hessian.getD (zerosLike tp.value)) g.values)⟩⟩

/-- Model of SophiaG.update_hessian over the whole parameter list. -/
def sophiaGUpdateHessian (beta2 : ℝ) (ps : List TrackedBase) : List TrackedBase :=
  ps.map (sophiaGUpdateHessianParam beta2)

/-- Collection phase of SophiaG.step (lines 100 to 130): parameters
without gradients are skipped, a sparse gradient raises before that
parameter's state is touched, and dense-gradient parameters get their
state lazily initialized and the hessian backfilled. -/
def sophiaGCollect : List TrackedBase → List TrackedBase × Option String
  | [] => ([], none)
  | tp :: rest =>
    match tp.grad with
    | none =>
      let pr := sophiaGCollect rest
      (tp :: pr.1, pr.2)
    | some g =>
      if g.sparse then (tp :: rest, some "Hero does not support sparse gradients")
      else
        let tp' : TrackedBase := ⟨tp.value, tp.grad, some (ensureBase tp.value tp.st)⟩
        let pr := sophiaGCollect rest
        (tp' :: pr.1, pr.2)

/-- Kernel phase of SophiaG.step: run _single_tensor_sophiag on every
parameter that has a gradient. -/
def applyBaseKernel (hp : Hyper) (bs : ℝ) (tp : TrackedBase) : TrackedBase :=
  match tp.grad with
  | none => tp
  | some g =>
    let s := ensureBase tp.value tp.st
    let out := single_tensor_sophiag hp bs tp.value g.values
      ⟨s.step, s.exp_avg, s.hessian.getD (zerosLike tp.value)⟩
    ⟨out.1, tp.grad, some ⟨out.2.step, out.2.exp_avg, some out.2.hessian⟩⟩

/-- Model of SophiaG.step (lines 85 to 151, closure omitted, capturable
false): the collection sweep runs first and a sparse gradient aborts the
whole call before any kernel runs, otherwise the sophiag dispatcher
invokes _single_tensor_sophiag on the collected parameters. -/
def sophiaGStep (hp : Hyper) (bs : ℝ) (ps : List TrackedBase) :
    List TrackedBase × Option String :=
  let pr := sophiaGCollect ps
  match pr.2 with
  | some msg => (pr.1, some msg)
  | none => (pr.1.map (applyBaseKernel hp bs), none)

/-- Stored per-parameter state of the rms-carrying variants (SophiaG_RMS,
SophiaG_OG and SophiaG_RMSD). -/
structure StoredRms where
  step : ℝ
  rms : Tensor
  exp_avg : Tensor
  hessian : Option Tensor

/-- A parameter tracked by one of the rms-carrying variants. -/
structure TrackedRms where
  value : Tensor
  grad : Option Grad
  st : Option StoredRms

/-- State initialization and hessian backfill of the rms-carrying variants
(lines 357 to 374, 612 to 629, 868 to 885): the rms buffer is created as
torch.zeros((1,)), a single-element tensor, while exp_avg and hessian are
zero-filled tensors shaped like the parameter. -/
def ensureRms (p : Tensor) (s : Option StoredRms) : StoredRms :=
  let s0 := s.getD ⟨0, [0], zerosLike p, some (zerosLike p)⟩
  ⟨s0.step, s0.rms, s0.exp_avg, some (s0.hessian.getD (zerosLike p))⟩

/-- Model of update_hessian for the rms-carrying variants (lines 301 to
329, 556 to 584, 812 to 840, which are textually identical): lazy state
initialization, hessian backfill, then the hessian EMA; again there is no
sparse-gradient check on this path. -/
def rmsFamilyUpdateHessianParam (beta2 : ℝ) (tp : TrackedRms) : TrackedRms :=
  match tp.grad with
  | none => tp
  | some g =>
    let s := ensureRms tp.value tp.st
    ⟨tp.value, tp.grad,
      some ⟨s.step, s.rms, s.exp_avg,
        some (hessianEMA beta2 (s.hessian.getD (zerosLike tp.value)) g.values)⟩⟩

/-- Model of update_hessian of the rms-carrying variants over the whole
parameter list. -/
def rmsFamilyUpdateHessian (beta2 : ℝ) (ps : List TrackedRms) : List TrackedRms :=
  ps.map (rmsFamilyUpdateHessianParam beta2)

/-- Collection phase of step for the rms-carrying variants (lines 347 to
382, 602 to 637, 858 to 893). -/
def rmsFamilyCollect : List TrackedRms → List TrackedRms × Option String
  | [] => ([], none)
  | tp :: rest =>
    match tp.grad with
    | none =>
      let pr := rmsFamilyCollect rest
      (tp :: pr.1, pr.2)
    | some g =>
      if g.sparse then (tp :: rest, some "does not support sparse gradients")
      else
        let tp' : TrackedRms := ⟨tp.value, tp.grad, some (ensureRms tp.value tp.st)⟩
        let pr := rmsFamilyCollect rest
        (tp' :: pr.1, pr.2)

/-- Kernel phase of SophiaG_RMS.step: run _single_tensor_sophiag_rms. -/
def applyRmsKernel (hp : Hyper) (bs : ℝ) (tp : TrackedRms) : TrackedRms :=
  match tp.grad with
  | none => tp
  | some g =>
    let s := ensureRms tp.value tp.st
    let out := single_tensor_sophiag_rms hp bs tp.value g.values
      ⟨s.step, s.rms, s.exp_avg, s.hessian.getD (zerosLike tp.value)⟩
    ⟨out.1, tp.grad, some ⟨out.2.step, out.2.rms, out.2.exp_avg, some out.2.hessian⟩⟩

/-- Kernel phase of SophiaG_OG.step: run _single_tensor_sophiag_og. -/
def applyOgKernel (hp : Hyper) (bs : ℝ) (tp : TrackedRms) : TrackedRms :=
  match tp.grad with
  | none => tp
  | some g =>
    let s := ensureRms tp.value tp.st
    let out := single_tensor_sophiag_og hp bs tp.value g.values
      ⟨s.step, s.rms, s.exp_avg, s.hessian.getD (zerosLike tp.value)⟩
    ⟨out.1, tp.grad, some ⟨out.2.step, out.2.rms, out.2.exp_avg, some out.2.hessian⟩⟩

/-- Model of SophiaG_RMS.step (lines 331 to 401): collect, then dispatch
through sophiag_rms to _single_tensor_sophiag_rms. -/
def sophiaGRmsStep (hp : Hyper) (bs : ℝ) (ps : List TrackedRms) :
    List TrackedRms × Option String :=
  let pr := rmsFamilyCollect ps
  match pr.2 with
  | some msg => (pr.1, some msg)
  | none => (pr.1.map (applyRmsKernel hp bs), none)

/-- Model of SophiaG_OG.step (lines 586 to 656): collect, then dispatch
through sophiag_og to _single_tensor_sophiag_og. -/
def sophiaGOgStep (hp : Hyper) (bs : ℝ) (ps : List TrackedRms) :
    List TrackedRms × Option String :=
  let pr := rmsFamilyCollect ps
  match pr.2 with
  | some msg => (pr.1, some msg)
  | none => (pr.1.map (applyOgKernel hp bs), none)

/-- Model of SophiaG_RMSD.step (lines 842 to 912): collect, then dispatch
through sophiag_rmsd, which at line 938 assigns
func = _single_tensor_sophiag_rms, so the RMS kernel runs and the
dedicated dual-EMA kernel _single_tensor_sophiag_rmsd is never invoked. -/
def sophiaGRmsdStep (hp : Hyper) (bs : ℝ) (ps : List TrackedRms) :
    List TrackedRms × Option String :=
  let pr := rmsFamilyCollect ps
  match pr.2 with
  | some msg => (pr.1, some msg)
  | none => (pr.1.map (applyRmsKernel hp bs), none)

/-- Constructor validation shared verbatim by all four variant classes
(lines 23 to 32, 268 to 277, 523 to 532 and 779 to 788). -/
def validateSophiaConfig (lr beta1 beta2 rho weight_decay : ℝ) : Option String :=
  if ¬ 0 ≤ lr then some "Invalid learning rate"
  else if ¬ (0 ≤ beta1 ∧ beta1 < 1) then some "Invalid beta parameter at index 0"
  else if ¬ (0 ≤ beta2 ∧ beta2 < 1) then some "Invalid beta parameter at index 1"
  else if ¬ 0 ≤ rho then some "Invalid rho parameter at index 1"
  else if ¬ 0 ≤ weight_decay then some "Invalid weight_decay value"
  else none

/-- C7: constructing any of the four optimizer variants rejects the
configuration exactly when lr < 0, or beta1 lies outside [0,1), or beta2
lies outside [0,1), or rho < 0, or weight_decay < 0, and accepts every
configuration inside those ranges; all four constructors run the
identical checks modelled by validateSophiaConfig. -/
theorem construction_error_iff (lr b1 b2 rho wd : ℝ) :
    (validateSophiaConfig lr b1 b2 rho wd).isSome ↔
      (lr < 0 ∨ b1 < 0 ∨ 1 ≤ b1 ∨ b2 < 0 ∨ 1 ≤ b2 ∨ rho < 0 ∨ wd < 0) := by
  unfold validateSophiaConfig
  split_ifs with h1 h2 h3 h4 h5 <;>
    simp_all [not_and_or, not_lt, not_le] <;>
    first
    | tauto
    | linarith
    | (rcases le_or_lt 0 b1 with hb | hb <;> rcases le_or_lt 0 b2 with hc | hc <;> tauto)

/-- The rms of a single-entry tensor is the absolute value of its entry. -/
theorem rmsOf_single (x : ℝ) : rmsOf [x] = |x| := by
  simp [rmsOf, Real.sqrt_mul_self_eq_abs]

/-- C3: SophiaG_RMSD.step performs exactly the same parameter and state
mutations as SophiaG_RMS.step on every input, because the sophiag_rmsd
dispatcher assigns func = _single_tensor_sophiag_rms at line 938; the
dedicated kernel _single_tensor_sophiag_rmsd is never reached from
SophiaG_RMSD.step. -/
theorem rmsd_step_eq_rms_step (hp : Hyper) (bs : ℝ) (ps : List TrackedRms) :
    sophiaGRmsdStep hp bs ps = sophiaGRmsStep hp bs ps := rfl

/-- C2: SophiaG_RMSD.step does not apply the dual-EMA formula of the
dedicated kernel.  At parameter [1], dense gradient [1/10], state with
step 0, rms [0], exp_avg [0] and hessian [1], and the RMSD default
hyperparameters lr 1e-4, betas (0.99, 0.99), rho 0.04, weight_decay 0.1,
bs 5120, the parameter written by SophiaG_RMSD.step differs from the
parameter the dedicated kernel _single_tensor_sophiag_rmsd would produce,
because step dispatches to the single-EMA RMS kernel. -/
theorem rmsd_step_ignores_dual_ema :
    (sophiaGRmsdStep ⟨1e-4, 99/100, 99/100, 4/100, 1e-1, false⟩ 5120
        [⟨[1], some ⟨false, [1/10]⟩, some ⟨0, [0], [0], some [1]⟩⟩]).1.map
        (fun tp => tp.value) ≠
      [(single_tensor_sophiag_rmsd ⟨1e-4, 99/100, 99/100, 4/100, 1e-1, false⟩ 5120
        [1] [1/10] ⟨0, [0], [0], [1]⟩).1] := by
  have hsign1 : Real.sign ((99 : ℝ)/100 * 0 + (1 - 99/100) * (1/10)) = 1 :=
    Real.sign_of_pos (by norm_num)
  have hsign2 : Real.sign ((0 : ℝ) * 0.95 + 0.05 * (1/10)) = 1 :=
    Real.sign_of_pos (by norm_num)
  simp only [sophiaGRmsdStep, rmsFamilyCollect, sophiaGRmsStep, applyRmsKernel,
    single_tensor_sophiag_rms, single_tensor_sophiag_rmsd, ensureRms, negIf,
    decayParam, emaVec, ratioVec, signedStep, zerosLike, Option.getD_some,
    List.map_cons, List.map_nil, List.zipWith_cons_cons, List.zipWith_nil_right,
    rmsOf_single, hsign1, hsign2, Bool.false_eq_true, if_false]
  simp only [List.cons.injEq, and_true, ne_eq]
  intro h
  rw [abs_of_nonneg (by norm_num : (0:ℝ) ≤ 1 * (1 - 1e-4 * 1e-1))] at h
  rw [max_eq_right (by norm_num : (1e-5 : ℝ) ≤ 1 * (1 - 1e-4 * 1e-1))] at h
  rw [abs_of_nonneg (by norm_num : (0:ℝ) ≤ (99 : ℝ)/100 * 0 + (1 - 99/100) * (1/10))] at h
  rw [abs_of_nonneg (by norm_num : (0:ℝ) ≤ (0 : ℝ) * 0.95 + 0.05 * (1/10))] at h
  rw [min_eq_left (by norm_num :
    ((99 : ℝ)/100 * 0 + (1 - 99/100) * (1/10)) / (4/100 * 5120 * 1 + 1e-15) ≤
      1 * (1 - 1e-4 * 1e-1))] at h
  rw [min_eq_left (by norm_num :
    ((0 : ℝ) * 0.95 + 0.05 * (1/10)) / (4/100 * 5120 * 1 + 1e-15) ≤
      1 * (1 - 1e-4 * 1e-1))] at h
  norm_num at h

/-- C1 (amended): for the Base variant with parameter [1], constant dense
gradient [1/10], lr 1e-4, betas (0.965, 0.99), rho 0.04, weight_decay
0.1, bs 5120, one update_hessian followed by one step gives hessian
[0.0001], momentum [0.0035], step counter 1; the parameter is first
multiplied by 1 - 1e-5 and then decremented by step_size * ratio where
step_size = 1e-4 * max(1e-3, rms of the decayed parameter)
= 1e-4 * 0.99999 and ratio = 0.0035 / (0.04 * 5120 * 0.0001 + 1e-15),
the clamp at 1 being inactive. -/
theorem base_concrete_scenario :
    sophiaGStep ⟨1e-4, 193/200, 99/100, 4/100, 1e-1, false⟩ 5120
        (sophiaGUpdateHessian (99/100) [⟨[1], some ⟨false, [1/10]⟩, none⟩]) =
      ([⟨[(1 - 1e-5) -
            (1e-4 * (1 - 1e-5)) * ((7/2000) / (4/100 * 5120 * (1/10000) + 1e-15))],
          some ⟨false, [1/10]⟩,
          some ⟨1, [7/2000], some [1/10000]⟩⟩], none) := by
  have hsign : Real.sign ((193 : ℝ)/200 * 0 + (1 - 193/200) * (1/10)) = 1 :=
    Real.sign_of_pos (by norm_num)
  simp only [sophiaGUpdateHessian, sophiaGUpdateHessianParam, ensureBase,
    hessianEMA, sophiaGStep, sophiaGCollect, applyBaseKernel,
    single_tensor_sophiag, negIf, decayParam, emaVec, ratioVec, signedStep,
    zerosLike, Option.getD_some, Option.getD_none, List.map_cons, List.map_nil,
    List.zipWith_cons_cons, List.zipWith_nil_right, rmsOf_single, hsign,
    Bool.false_eq_true, if_false]
  rw [abs_of_nonneg (by norm_num : (0:ℝ) ≤ 1 * (1 - 1e-4 * 1e-1))]
  rw [max_eq_right (by norm_num : (1e-3 : ℝ) ≤ 1 * (1 - 1e-4 * 1e-1))]
  rw [abs_of_nonneg (by norm_num : (0:ℝ) ≤ (193 : ℝ)/200 * 0 + (1 - 193/200) * (1/10))]
  rw [min_eq_left (by norm_num :
    ((193 : ℝ)/200 * 0 + (1 - 193/200) * (1/10)) /
        (4/100 * 5120 * (0 * (99/100) + (1 - 99/100) * (1/10 * (1/10))) + 1e-15) ≤ 1)]
  norm_num

/-- C1 (counterexample): at the same scenario the claimed final parameter
value, namely 0.99999 decremented by 1e-4 * (0.0035 / 20.48), is not what
the code produces: the denominator 0.04 * 5120 * 0.0001 equals 0.02048
rather than 20.48, and the step size is 1e-4 * 0.99999 rather than 1e-4
because the rms is taken of the already weight-decayed parameter. -/
theorem base_concrete_scenario_claim_false :
    (sophiaGStep ⟨1e-4, 193/200, 99/100, 4/100, 1e-1, false⟩ 5120
        (sophiaGUpdateHessian (99/100) [⟨[1], some ⟨false, [1/10]⟩, none⟩])).1.map
        (fun tp => tp.value) ≠
      [[(1 - 1e-5) - 1e-4 * ((7/2000) / (2048/100))]] := by
  have hsign : Real.sign ((193 : ℝ)/200 * 0 + (1 - 193/200) * (1/10)) = 1 :=
    Real.sign_of_pos (by norm_num)
  simp only [sophiaGUpdateHessian, sophiaGUpdateHessianParam, ensureBase,
    hessianEMA, sophiaGStep, sophiaGCollect, applyBaseKernel,
    single_tensor_sophiag, negIf, decayParam, emaVec, ratioVec, signedStep,
    zerosLike, Option.getD_some, Option.getD_none, List.map_cons, List.map_nil,
    List.zipWith_cons_cons, List.zipWith_nil_right, rmsOf_single, hsign,
    Bool.false_eq_true, if_false]
  simp only [List.cons.injEq, and_true, ne_eq]
  intro h
  rw [abs_of_nonneg (by norm_num : (0:ℝ) ≤ 1 * (1 - 1e-4 * 1e-1))] at h
  rw [max_eq_right (by norm_num : (1e-3 : ℝ) ≤ 1 * (1 - 1e-4 * 1e-1))] at h
  rw [abs_of_nonneg (by norm_num : (0:ℝ) ≤ (193 : ℝ)/200 * 0 + (1 - 193/200) * (1/10))] at h
  rw [min_eq_left (by norm_num :
    ((193 : ℝ)/200 * 0 + (1 - 193/200) * (1/10)) /
        (4/100 * 5120 * (0 * (99/100) + (1 - 99/100) * (1/10 * (1/10))) + 1e-15) ≤ 1)] at h
  norm_num at h

/-- C4 (amended): the scalar coefficient multiplying sign(momentum) *
ratio in the parameter update is lr * max(1e-3, rms of the weight-decayed
parameter) for the Base kernel, but plain lr for the RMS, OG and
dedicated RMSD kernels; in those variants the rms-derived scalar enters
the clamp bound (RMS, RMSD) or only the rms buffer (OG), never the
coefficient. -/
theorem step_coefficient_by_variant :
    (∀ (hp : Hyper) (bs : ℝ) (param grad : Tensor) (st : BaseState) (i : ℕ)
        (pv mv rv : ℝ),
        (decayParam hp.lr hp.weight_decay param).get? i = some pv →
        (emaVec hp.beta1 st.exp_avg (negIf hp.maximize grad)).get? i = some mv →
        (ratioVec hp.rho bs 1 (emaVec hp.beta1 st.exp_avg (negIf hp.maximize grad))
            st.hessian).get? i = some rv →
        ((single_tensor_sophiag hp bs param grad st).1).get? i =
          some (pv - hp.lr * max 1e-3 (rmsOf (decayParam hp.lr hp.weight_decay param)) *
            (Real.sign mv * rv))) ∧
    (∀ (hp : Hyper) (bs : ℝ) (param grad : Tensor) (st : RmsState) (i : ℕ)
        (pv mv rv : ℝ),
        (decayParam hp.lr hp.weight_decay param).get? i = some pv →
        (emaVec hp.beta1 st.exp_avg (negIf hp.maximize grad)).get? i = some mv →
        (ratioVec hp.rho bs (max 1e-5 (rmsOf (decayParam hp.lr hp.weight_decay param)))
            (emaVec hp.beta1 st.exp_avg (negIf hp.maximize grad)) st.hessian).get? i =
          some rv →
        ((single_tensor_sophiag_rms hp bs param grad st).1).get? i =
          some (pv - hp.lr * (Real.sign mv * rv))) ∧
    (∀ (hp : Hyper) (bs : ℝ) (param grad : Tensor) (st : RmsState) (i : ℕ)
        (pv mv rv : ℝ),
        (decayParam hp.lr hp.weight_decay param).get? i = some pv →
        (emaVec hp.beta1 st.exp_avg (negIf hp.maximize grad)).get? i = some mv →
        (ratioVec hp.rho bs 1 (emaVec hp.beta1 st.exp_avg (negIf hp.maximize grad))
            st.hessian).get? i = some rv →
        ((single_tensor_sophiag_og hp bs param grad st).1).get? i =
          some (pv - hp.lr * (Real.sign mv * rv))) ∧
    (∀ (hp : Hyper) (bs : ℝ) (param grad : Tensor) (st : RmsState) (i : ℕ)
        (pv mv rv : ℝ),
        (decayParam hp.lr hp.weight_decay param).get? i = some pv →
        (List.zipWith (fun mi gi => mi * 0.95 + 0.05 * gi) st.exp_avg
            (negIf hp.maximize grad)).get? i = some mv →
        (ratioVec hp.rho bs (max 1e-5 (rmsOf (decayParam hp.lr hp.weight_decay param)))
            (List.zipWith (fun mi gi => mi * 0.95 + 0.05 * gi) st.exp_avg
              (negIf hp.maximize grad)) st.hessian).get? i = some rv →
        ((single_tensor_sophiag_rmsd hp bs param grad st).1).get? i =
          some (pv - hp.lr * (Real.sign mv * rv))) := by
  refine ⟨?_, ?_, ?_, ?_⟩ <;>
    · intro hp bs param grad st i pv mv rv hP hM hR
      simp only [List.get?_eq_getElem?] at hP hM hR
      simp [single_tensor_sophiag, single_tensor_sophiag_rms,
        single_tensor_sophiag_og, single_tensor_sophiag_rmsd, signedStep,
        List.getElem?_zipWith', hP, hM, hR]

/-- C4 (witness): the Base conjunct evaluated at lr 1, beta1 0, zero rho
and weight decay, parameter [1], gradient [1] and zero state. -/
theorem step_coefficient_by_variant_witness :
    ((single_tensor_sophiag ⟨1, 0, 0, 0, 0, false⟩ 1 [1] [1] ⟨0, [0], [0]⟩).1).get? 0 =
      some (1 - 1 * max 1e-3 (rmsOf (decayParam 1 0 [1])) *
        (Real.sign 1 * min (|(1 : ℝ)| / (0 * 1 * 0 + 1e-15)) 1)) :=
  step_coefficient_by_variant.1 ⟨1, 0, 0, 0, 0, false⟩ 1 [1] [1] ⟨0, [0], [0]⟩ 0
    1 1 (min (|(1 : ℝ)| / (0 * 1 * 0 + 1e-15)) 1)
    (by norm_num [decayParam]) (by norm_num [emaVec, negIf])
    (by norm_num [ratioVec, emaVec, negIf])

/-- C4 (counterexample): for the RMS kernel at parameter [2], gradient
[1/10], state with exp_avg [0] and hessian [1], lr 1e-4, betas
(0.965, 0.99), rho 0.04, weight_decay 0.1, bs 5120, the updated parameter
differs from what a coefficient of lr * max(1e-5, rms(parameter)) would
produce: the code multiplies sign(momentum) * ratio by plain lr. -/
theorem rms_kernel_coefficient_counterexample :
    (single_tensor_sophiag_rms ⟨1e-4, 193/200, 99/100, 4/100, 1e-1, false⟩ 5120
        [2] [1/10] ⟨0, [0], [0], [1]⟩).1 ≠
      [(2 : ℝ) * (1 - 1e-4 * 1e-1) -
        1e-4 * max 1e-5 (rmsOf [(2 : ℝ)]) *
          (Real.sign ((193 : ℝ)/200 * 0 + (1 - 193/200) * (1/10)) *
            min (|(193 : ℝ)/200 * 0 + (1 - 193/200) * (1/10)| /
                (4/100 * 5120 * 1 + 1e-15))
              (max 1e-5 (rmsOf [(2 : ℝ) * (1 - 1e-4 * 1e-1)])))] := by
  have hsign : Real.sign ((193 : ℝ)/200 * 0 + (1 - 193/200) * (1/10)) = 1 :=
    Real.sign_of_pos (by norm_num)
  simp only [single_tensor_sophiag_rms, negIf, decayParam, emaVec, ratioVec,
    signedStep, List.map_cons, List.map_nil, List.zipWith_cons_cons,
    List.zipWith_nil_right, rmsOf_single, hsign, Bool.false_eq_true, if_false]
  simp only [List.cons.injEq, and_true, ne_eq]
  intro h
  rw [abs_of_nonneg (by norm_num : (0:ℝ) ≤ 2 * (1 - 1e-4 * 1e-1))] at h
  rw [abs_of_nonneg (by norm_num : (0:ℝ) ≤ (2 : ℝ))] at h
  rw [max_eq_right (by norm_num : (1e-5 : ℝ) ≤ 2 * (1 - 1e-4 * 1e-1))] at h
  rw [max_eq_right (by norm_num : (1e-5 : ℝ) ≤ (2 : ℝ))] at h
  rw [abs_of_nonneg (by norm_num : (0:ℝ) ≤ (193 : ℝ)/200 * 0 + (1 - 193/200) * (1/10))] at h
  rw [min_eq_left (by norm_num :
    ((193 : ℝ)/200 * 0 + (1 - 193/200) * (1/10)) / (4/100 * 5120 * 1 + 1e-15) ≤
      2 * (1 - 1e-4 * 1e-1))] at h
  norm_num at h

/-- When the hessian entries are all zero and every momentum entry has
magnitude at least bound * 1e-15, the clipped ratio saturates at the
bound in every component. -/
theorem ratioVec_saturates (rho bs bound : ℝ) :
    ∀ (m h : Tensor), (∀ x ∈ h, x = 0) → (∀ x ∈ m, bound * 1e-15 ≤ |x|) →
      ratioVec rho bs bound m h = List.replicate (min m.length h.length) bound := by
  intro m
  induction m with
  | nil => intro h _ _; simp [ratioVec]
  | cons a t ih =>
    intro h hh hm
    cases h with
    | nil => simp [ratioVec]
    | cons b s =>
      have hb : b = 0 := hh b (List.mem_cons_self b s)
      have ha : bound * 1e-15 ≤ |a| := hm a (List.mem_cons_self a t)
      have hrest := ih s (fun x hx => hh x (List.mem_cons_of_mem b hx))
        (fun x hx => hm x (List.mem_cons_of_mem a hx))
      have hmin : min (|a| / (rho * bs * b + 1e-15)) bound = bound := by
        subst hb
        have hden : rho * bs * 0 + 1e-15 = 1e-15 := by ring
        rw [hden]
        refine min_eq_right ?_
        rw [le_div_iff₀ (by norm_num : (0:ℝ) < 1e-15)]
        exact ha
      simp only [ratioVec, List.zipWith_cons_cons, List.length_cons] at *
      rw [hmin, hrest]
      rw [Nat.succ_min_succ, List.replicate_succ]

/-- C5 (amended): for every variant, when the hessian buffer is all zeros
the ratio denominator rho * bs * hessian + 1e-15 is strictly positive in
every component, and the elementwise ratio equals the variant clamp bound
exactly (1 for Base and OG, max(1e-5, rms of the decayed parameter) for
RMS and RMSD) in every component whose momentum magnitude is at least
bound * 1e-15; momentum being merely nonzero does not suffice. -/
theorem ratio_clamps_on_zero_hessian :
    (∀ (rho bs : ℝ) (h : Tensor), (∀ x ∈ h, x = 0) →
      ∀ x ∈ h, 0 < rho * bs * x + 1e-15) ∧
    (∀ (hp : Hyper) (bs : ℝ) (m : Tensor) (st : BaseState),
      (∀ x ∈ st.hessian, x = 0) → (∀ x ∈ m, 1 * 1e-15 ≤ |x|) →
      ratioVec hp.rho bs 1 m st.hessian =
        List.replicate (min m.length st.hessian.length) 1) ∧
    (∀ (hp : Hyper) (bs : ℝ) (param : Tensor) (m : Tensor) (st : RmsState),
      (∀ x ∈ st.hessian, x = 0) →
      (∀ x ∈ m, max 1e-5 (rmsOf (decayParam hp.lr hp.weight_decay param)) * 1e-15 ≤ |x|) →
      ratioVec hp.rho bs (max 1e-5 (rmsOf (decayParam hp.lr hp.weight_decay param)))
          m st.hessian =
        List.replicate (min m.length st.hessian.length)
          (max 1e-5 (rmsOf (decayParam hp.lr hp.weight_decay param)))) := by
  refine ⟨?_, ?_, ?_⟩
  · intro rho bs h hh x hx
    rw [hh x hx]
    norm_num
  · intro hp bs m st hh hm
    exact ratioVec_saturates hp.rho bs 1 m st.hessian hh hm
  · intro hp bs param m st hh hm
    exact ratioVec_saturates hp.rho bs _ m st.hessian hh hm

/-- C5 (witness): with hessian [0] and momentum [1] the Base-variant
ratio is exactly [1] and the denominator is positive. -/
theorem ratio_clamps_on_zero_hessian_witness :
    (∀ x ∈ ([0] : Tensor), 0 < (4:ℝ)/100 * 5120 * x + 1e-15) ∧
    ratioVec (4/100) 5120 1 [1] [0] = List.replicate (min 1 1) 1 :=
  ⟨ratio_clamps_on_zero_hessian.1 (4/100) 5120 [0] (by simp),
    by
      have := ratio_clamps_on_zero_hessian.2.1 ⟨1, 0, 0, 4/100, 0, false⟩ 5120
        [1] ⟨0, [0], [0]⟩ (by simp) (by intro x hx; simp at hx; subst hx; norm_num)
      simpa using this⟩

/-- C5 (counterexample): with hessian [0], beta1 0 and gradient [1e-20]
the momentum after the EMA update is [1e-20], nonzero, yet the Base
variant ratio is [1e-5] rather than the clamp bound 1: the denominator
epsilon 1e-15 exceeds the momentum magnitude, so the quotient stays below
the bound. -/
theorem ratio_not_clamped_counterexample :
    emaVec 0 [(0 : ℝ)] [1e-20] ≠ [0] ∧
    ratioVec (4/100) 5120 1 (emaVec 0 [(0 : ℝ)] [1e-20]) [0] ≠ [1] := by
  constructor
  · simp only [emaVec, List.zipWith_cons_cons, List.zipWith_nil_right,
      List.cons.injEq, and_true, ne_eq]
    norm_num
  · simp only [emaVec, ratioVec, List.zipWith_cons_cons, List.zipWith_nil_right,
      List.cons.injEq, and_true, ne_eq]
    intro h
    rw [abs_of_nonneg (by norm_num : (0:ℝ) ≤ 0 * 0 + (1 - 0) * 1e-20)] at h
    rw [min_eq_left (by norm_num :
      ((0 : ℝ) * 0 + (1 - 0) * 1e-20) / (4/100 * 5120 * 0 + 1e-15) ≤ 1)] at h
    norm_num at h

/-- C9: a single update_hessian invocation, on a parameter with a defined
dense gradient and an already-initialized state carrying a hessian
buffer, replaces the hessian buffer elementwise with beta2 * hessian +
(1 - beta2) * gradient^2 and leaves the parameter value, the step counter
and the momentum buffer unchanged, both in the base variant and in the
rms-carrying variants. -/
theorem update_hessian_frame :
    (∀ (beta2 : ℝ) (tp : TrackedBase) (g : Grad) (s : StoredBase) (h : Tensor),
        tp.grad = some g → g.sparse = false → tp.st = some s → s.hessian = some h →
        sophiaGUpdateHessianParam beta2 tp =
          ⟨tp.value, tp.grad,
            some ⟨s.step, s.exp_avg, some (hessianEMA beta2 h g.values)⟩⟩) ∧
    (∀ (beta2 : ℝ) (tp : TrackedRms) (g : Grad) (s : StoredRms) (h : Tensor),
        tp.grad = some g → g.sparse = false → tp.st = some s → s.hessian = some h →
        rmsFamilyUpdateHessianParam beta2 tp =
          ⟨tp.value, tp.grad,
            some ⟨s.step, s.rms, s.exp_avg, some (hessianEMA beta2 h g.values)⟩⟩) := by
  constructor <;>
    · intro beta2 tp g s h hg hsp hs hh
      simp [sophiaGUpdateHessianParam, rmsFamilyUpdateHessianParam, ensureBase,
        ensureRms, hg, hs, hh]

/-- C9 (witness): the base conjunct at parameter [1], gradient [2] and
state with step 5, momentum [3] and hessian [4]. -/
theorem update_hessian_frame_witness :
    sophiaGUpdateHessianParam (1/2)
        ⟨[1], some ⟨false, [2]⟩, some ⟨5, [3], some [4]⟩⟩ =
      ⟨[1], some ⟨false, [2]⟩, some ⟨5, [3], some (hessianEMA (1/2) [4] [2])⟩⟩ :=
  update_hessian_frame.1 (1/2) ⟨[1], some ⟨false, [2]⟩, some ⟨5, [3], some [4]⟩⟩
    ⟨false, [2]⟩ ⟨5, [3], some [4]⟩ [4] rfl rfl rfl rfl

/-- A sparse gradient in the collection sweep of SophiaG.step aborts the
sweep with the error message, leaving the sparse parameter and everything
after it untouched. -/
theorem sophiaGCollect_sparse (tp : TrackedBase) (g : Grad)
    (hg : tp.grad = some g) (hsp : g.sparse = true) :
    ∀ (ps₁ ps₂ : List TrackedBase),
      (∀ q ∈ ps₁, ∀ g', q.grad = some g' → g'.sparse = false) →
      ∃ l, sophiaGCollect (ps₁ ++ tp :: ps₂) =
        (l ++ tp :: ps₂, some "Hero does not support sparse gradients") := by
  intro ps₁
  induction ps₁ with
  | nil =>
    intro ps₂ _
    refine ⟨[], ?_⟩
    simp [sophiaGCollect, hg, hsp]
  | cons q t ih =>
    intro ps₂ hqs
    obtain ⟨l, hl⟩ := ih ps₂ (fun q' hq' => hqs q' (List.mem_cons_of_mem q hq'))
    cases hq : q.grad with
    | none =>
      refine ⟨q :: l, ?_⟩
      simp [sophiaGCollect, hq, hl]
    | some g' =>
      have hgd : g'.sparse = false := hqs q (List.mem_cons_self q t) g' hq
      refine ⟨⟨q.value, q.grad, some (ensureBase q.value q.st)⟩ :: l, ?_⟩
      simp [sophiaGCollect, hq, hgd, hl]

/-- A sparse gradient in the collection sweep of the rms-carrying
variants aborts the sweep with the error message, leaving the sparse
parameter and everything after it untouched. -/
theorem rmsFamilyCollect_sparse (tp : TrackedRms) (g : Grad)
    (hg : tp.grad = some g) (hsp : g.sparse = true) :
    ∀ (ps₁ ps₂ : List TrackedRms),
      (∀ q ∈ ps₁, ∀ g', q.grad = some g' → g'.sparse = false) →
      ∃ l, rmsFamilyCollect (ps₁ ++ tp :: ps₂) =
        (l ++ tp :: ps₂, some "does not support sparse gradients") := by
  intro ps₁
  induction ps₁ with
  | nil =>
    intro ps₂ _
    refine ⟨[], ?_⟩
    simp [rmsFamilyCollect, hg, hsp]
  | cons q t ih =>
    intro ps₂ hqs
    obtain ⟨l, hl⟩ := ih ps₂ (fun q' hq' => hqs q' (List.mem_cons_of_mem q hq'))
    cases hq : q.grad with
    | none =>
      refine ⟨q :: l, ?_⟩
      simp [rmsFamilyCollect, hq, hl]
    | some g' =>
      have hgd : g'.sparse = false := hqs q (List.mem_cons_self q t) g' hq
      refine ⟨⟨q.value, q.grad, some (ensureRms q.value q.st)⟩ :: l, ?_⟩
      simp [rmsFamilyCollect, hq, hgd, hl]

/-- C6 (amended): in every variant, step fails with the invalid-gradient
error as soon as some tracked parameter's gradient is sparse, no kernel
update runs, and the sparse parameter itself (with everything after it)
is returned untouched; update_hessian, in contrast, performs no
sparse-gradient check in any variant: it initializes state and applies
the hessian EMA to a sparse gradient exactly as to a dense one. -/
theorem sparse_gradient_checks :
    (∀ (hp : Hyper) (bs : ℝ) (ps₁ ps₂ : List TrackedBase) (tp : TrackedBase) (g : Grad),
        tp.grad = some g → g.sparse = true →
        (∀ q ∈ ps₁, ∀ g', q.grad = some g' → g'.sparse = false) →
        (sophiaGStep hp bs (ps₁ ++ tp :: ps₂)).2 =
            some "Hero does not support sparse gradients" ∧
          ∃ l, (sophiaGStep hp bs (ps₁ ++ tp :: ps₂)).1 = l ++ tp :: ps₂) ∧
    (∀ (hp : Hyper) (bs : ℝ) (ps₁ ps₂ : List TrackedRms) (tp : TrackedRms) (g : Grad),
        tp.grad = some g → g.sparse = true →
        (∀ q ∈ ps₁, ∀ g', q.grad = some g' → g'.sparse = false) →
        ((sophiaGRmsStep hp bs (ps₁ ++ tp :: ps₂)).2 =
              some "does not support sparse gradients" ∧
            ∃ l, (sophiaGRmsStep hp bs (ps₁ ++ tp :: ps₂)).1 = l ++ tp :: ps₂) ∧
          ((sophiaGOgStep hp bs (ps₁ ++ tp :: ps₂)).2 =
              some "does not support sparse gradients" ∧
            ∃ l, (sophiaGOgStep hp bs (ps₁ ++ tp :: ps₂)).1 = l ++ tp :: ps₂) ∧
          ((sophiaGRmsdStep hp bs (ps₁ ++ tp :: ps₂)).2 =
              some "does not support sparse gradients" ∧
            ∃ l, (sophiaGRmsdStep hp bs (ps₁ ++ tp :: ps₂)).1 = l ++ tp :: ps₂)) ∧
    (∀ (beta2 : ℝ) (v vals : Tensor) (st : Option StoredBase),
        sophiaGUpdateHessianParam beta2 ⟨v, some ⟨true, vals⟩, st⟩ =
          ⟨v, some ⟨true, vals⟩,
            some ⟨(ensureBase v st).step, (ensureBase v st).exp_avg,
              some (hessianEMA beta2
                ((ensureBase v st).hessian.getD (zerosLike v)) vals)⟩⟩) ∧
    (∀ (beta2 : ℝ) (v vals : Tensor) (st : Option StoredRms),
        rmsFamilyUpdateHessianParam beta2 ⟨v, some ⟨true, vals⟩, st⟩ =
          ⟨v, some ⟨true, vals⟩,
            some ⟨(ensureRms v st).step, (ensureRms v st).rms,
              (ensureRms v st).exp_avg,
              some (hessianEMA beta2
                ((ensureRms v st).hessian.getD (zerosLike v)) vals)⟩⟩) := by
  refine ⟨?_, ?_, ?_, ?_⟩
  · intro hp bs ps₁ ps₂ tp g hg hsp hd
    obtain ⟨l, hl⟩ := sophiaGCollect_sparse tp g hg hsp ps₁ ps₂ hd
    exact ⟨by simp [sophiaGStep, hl], ⟨l, by simp [sophiaGStep, hl]⟩⟩
  · intro hp bs ps₁ ps₂ tp g hg hsp hd
    obtain ⟨l, hl⟩ := rmsFamilyCollect_sparse tp g hg hsp ps₁ ps₂ hd
    exact ⟨⟨by simp [sophiaGRmsStep, hl], ⟨l, by simp [sophiaGRmsStep, hl]⟩⟩,
      ⟨by simp [sophiaGOgStep, hl], ⟨l, by simp [sophiaGOgStep, hl]⟩⟩,
      ⟨by simp [sophiaGRmsdStep, hl], ⟨l, by simp [sophiaGRmsdStep, hl]⟩⟩⟩
  · intro beta2 v vals st
    rfl
  · intro beta2 v vals st
    rfl

/-- C6 (witness): a single tracked parameter with a sparse gradient makes
SophiaG.step fail with the invalid-gradient error. -/
theorem sparse_gradient_checks_witness :
    (sophiaGStep ⟨1, 0, 0, 0, 0, false⟩ 1 [⟨[1], some ⟨true, [2]⟩, none⟩]).2 =
      some "Hero does not support sparse gradients" :=
  (sparse_gradient_checks.1 ⟨1, 0, 0, 0, 0, false⟩ 1 [] []
    ⟨[1], some ⟨true, [2]⟩, none⟩ ⟨true, [2]⟩ rfl rfl (by simp)).1

/-- C6 (counterexample): SophiaG.update_hessian applied to a parameter
whose gradient is sparse does not fail: it initializes the state and
writes the hessian EMA of the sparse gradient values, mutating state
rather than raising an invalid-gradient error. -/
theorem update_hessian_no_sparse_check_counterexample :
    sophiaGUpdateHessian (99/100) [⟨[1], some ⟨true, [2]⟩, none⟩] =
      [⟨[1], some ⟨true, [2]⟩,
        some ⟨0, [0], some [(0 : ℝ) * (99/100) + (1 - 99/100) * (2 * 2)]⟩⟩] := by
  simp [sophiaGUpdateHessian, sophiaGUpdateHessianParam, ensureBase, hessianEMA,
    zerosLike]

/-- Every entry of a zeros-like tensor is zero. -/
theorem zerosLike_zero (p : Tensor) : ∀ x ∈ zerosLike p, x = 0 := by
  intro x hx
  simp only [zerosLike, List.mem_map] at hx
  obtain ⟨a, _, h⟩ := hx
  exact h.symm

/-- A zeros-like tensor has the length of its template. -/
theorem zerosLike_length (p : Tensor) : (zerosLike p).length = p.length := by
  simp [zerosLike]

/-- The optional gradient negation preserves the length. -/
theorem negIf_length (b : Bool) (g : Tensor) : (negIf b g).length = g.length := by
  cases b <;> simp [negIf]

/-- Shape discipline of a stored base state relative to a parameter with
n entries: the momentum buffer has n entries and so does the hessian
buffer whenever it is present. -/
def BaseShaped (n : ℕ) (s : StoredBase) : Prop :=
  s.exp_avg.length = n ∧ ∀ h, s.hessian = some h → h.length = n

/-- Shape discipline of a stored rms-family state: the rms buffer is a
single-element tensor, the momentum buffer has n entries and so does the
hessian buffer whenever it is present. -/
def RmsShaped (n : ℕ) (s : StoredRms) : Prop :=
  s.rms.length = 1 ∧ s.exp_avg.length = n ∧ ∀ h, s.hessian = some h → h.length = n

/-- A tracked base parameter whose state, when present, is shaped like
its value. -/
def TrackedBaseShaped (tp : TrackedBase) : Prop :=
  ∀ s, tp.st = some s → BaseShaped tp.value.length s

/-- A tracked rms-family parameter whose state, when present, is shaped
like its value. -/
def TrackedRmsShaped (tp : TrackedRms) : Prop :=
  ∀ s, tp.st = some s → RmsShaped tp.value.length s

/-- State initialization of SophiaG yields a well-shaped state. -/
theorem ensureBase_shaped (v : Tensor) (st : Option StoredBase)
    (hst : ∀ s₀, st = some s₀ → BaseShaped v.length s₀) :
    BaseShaped v.length (ensureBase v st) := by
  cases st with
  | none =>
    refine ⟨by simp [ensureBase, zerosLike], ?_⟩
    intro h hh
    simp only [ensureBase, Option.getD_none, Option.getD_some, Option.some.injEq] at hh
    subst hh
    exact zerosLike_length v
  | some s₀ =>
    obtain ⟨he, hh⟩ := hst s₀ rfl
    refine ⟨he, ?_⟩
    intro h heq
    cases hs : s₀.hessian with
    | none =>
      simp only [ensureBase, Option.getD_some, hs, Option.getD_none,
        Option.some.injEq] at heq
      subst heq
      exact zerosLike_length v
    | some h₀ =>
      simp only [ensureBase, Option.getD_some, hs, Option.some.injEq] at heq
      subst heq
      exact hh h₀ hs

/-- State initialization of the rms-carrying variants yields a
well-shaped state. -/
theorem ensureRms_shaped (v : Tensor) (st : Option StoredRms)
    (hst : ∀ s₀, st = some s₀ → RmsShaped v.length s₀) :
    RmsShaped v.length (ensureRms v st) := by
  cases st with
  | none =>
    refine ⟨by simp [ensureRms], by simp [ensureRms, zerosLike], ?_⟩
    intro h hh
    simp only [ensureRms, Option.getD_none, Option.getD_some, Option.some.injEq] at hh
    subst hh
    exact zerosLike_length v
  | some s₀ =>
    obtain ⟨hr, he, hh⟩ := hst s₀ rfl
    refine ⟨hr, he, ?_⟩
    intro h heq
    cases hs : s₀.hessian with
    | none =>
      simp only [ensureRms, Option.getD_some, hs, Option.getD_none,
        Option.some.injEq] at heq
      subst heq
      exact zerosLike_length v
    | some h₀ =>
      simp only [ensureRms, Option.getD_some, hs, Option.some.injEq] at heq
      subst heq
      exact hh h₀ hs

/-- C8 (amended): at lazy state creation, in every variant, the momentum
and hessian buffers are zero-filled and shape-identical to the parameter;
but the rms buffer of the RMS, OG and RMSD variants is a zero-filled
single-element tensor, irrespective of the parameter shape.  Each kernel
application and each update_hessian call preserves these shapes (and the
parameter length), assuming the gradient is parameter-shaped. -/
theorem buffer_shapes :
    (∀ p : Tensor, BaseShaped p.length (ensureBase p none) ∧
      (∀ x ∈ (ensureBase p none).exp_avg, x = 0) ∧
      (∀ h, (ensureBase p none).hessian = some h → ∀ x ∈ h, x = 0)) ∧
    (∀ p : Tensor, RmsShaped p.length (ensureRms p none) ∧
      (∀ x ∈ (ensureRms p none).rms, x = 0) ∧
      (∀ x ∈ (ensureRms p none).exp_avg, x = 0) ∧
      (∀ h, (ensureRms p none).hessian = some h → ∀ x ∈ h, x = 0)) ∧
    (∀ (hp : Hyper) (bs : ℝ) (tp : TrackedBase),
      (∀ g, tp.grad = some g → g.values.length = tp.value.length) →
      TrackedBaseShaped tp →
      (applyBaseKernel hp bs tp).value.length = tp.value.length ∧
        TrackedBaseShaped (applyBaseKernel hp bs tp)) ∧
    (∀ (hp : Hyper) (bs : ℝ) (tp : TrackedRms),
      (∀ g, tp.grad = some g → g.values.length = tp.value.length) →
      TrackedRmsShaped tp →
      (applyRmsKernel hp bs tp).value.length = tp.value.length ∧
        TrackedRmsShaped (applyRmsKernel hp bs tp)) ∧
    (∀ (hp : Hyper) (bs : ℝ) (tp : TrackedRms),
      (∀ g, tp.grad = some g → g.values.length = tp.value.length) →
      TrackedRmsShaped tp →
      (applyOgKernel hp bs tp).value.length = tp.value.length ∧
        TrackedRmsShaped (applyOgKernel hp bs tp)) ∧
    (∀ (beta2 : ℝ) (tp : TrackedBase),
      (∀ g, tp.grad = some g → g.values.length = tp.value.length) →
      TrackedBaseShaped tp →
      (sophiaGUpdateHessianParam beta2 tp).value = tp.value ∧
        TrackedBaseShaped (sophiaGUpdateHessianParam beta2 tp)) ∧
    (∀ (beta2 : ℝ) (tp : TrackedRms),
      (∀ g, tp.grad = some g → g.values.length = tp.value.length) →
      TrackedRmsShaped tp →
      (rmsFamilyUpdateHessianParam beta2 tp).value = tp.value ∧
        TrackedRmsShaped (rmsFamilyUpdateHessianParam beta2 tp)) := by
  refine ⟨?_, ?_, ?_, ?_, ?_, ?_, ?_⟩
  · intro p
    refine ⟨ensureBase_shaped p none (by intro s₀ h; cases h), ?_, ?_⟩
    · intro x hx
      simp only [ensureBase, Option.getD_none] at hx
      exact zerosLike_zero p x hx
    · intro h hh x hx
      simp only [ensureBase, Option.getD_none, Option.getD_some,
        Option.some.injEq] at hh
      subst hh
      exact zerosLike_zero p x hx
  · intro p
    refine ⟨ensureRms_shaped p none (by intro s₀ h; cases h), ?_, ?_, ?_⟩
    · intro x hx
      simp only [ensureRms, Option.getD_none] at hx
      simp at hx
      exact hx
    · intro x hx
      simp only [ensureRms, Option.getD_none] at hx
      exact zerosLike_zero p x hx
    · intro h hh x hx
      simp only [ensureRms, Option.getD_none, Option.getD_some,
        Option.some.injEq] at hh
      subst hh
      exact zerosLike_zero p x hx
  · intro hp bs tp hgl hshape
    rcases tp with ⟨v, gr, st⟩
    cases gr with
    | none => exact ⟨rfl, hshape⟩
    | some g =>
      have hgv : g.values.length = v.length := hgl g rfl
      have hens : BaseShaped v.length (ensureBase v st) :=
        ensureBase_shaped v st (fun s₀ h => hshape s₀ h)
      obtain ⟨he, hh⟩ := hens
      have hhl : ((ensureBase v st).hessian.getD (zerosLike v)).length = v.length := by
        cases hhe : (ensureBase v st).hessian with
        | none => simp [zerosLike_length]
        | some h₀ => simpa using hh h₀ hhe
      have hvlen : (applyBaseKernel hp bs ⟨v, some g, st⟩).value.length = v.length := by
        simp only [applyBaseKernel, single_tensor_sophiag, signedStep, decayParam,
          emaVec, ratioVec]
        simp [List.length_zipWith, negIf_length, he, hgv, hhl]
      refine ⟨hvlen, ?_⟩
      intro s hs
      simp only [applyBaseKernel, single_tensor_sophiag, Option.some.injEq] at hs
      subst hs
      rw [hvlen]
      refine ⟨?_, ?_⟩
      · simp only [emaVec]
        simp [List.length_zipWith, negIf_length, he, hgv]
      · intro h hh'
        simp only [Option.some.injEq] at hh'
        subst hh'
        exact hhl
  · intro hp bs tp hgl hshape
    rcases tp with ⟨v, gr, st⟩
    cases gr with
    | none => exact ⟨rfl, hshape⟩
    | some g =>
      have hgv : g.values.length = v.length := hgl g rfl
      have hens : RmsShaped v.length (ensureRms v st) :=
        ensureRms_shaped v st (fun s₀ h => hshape s₀ h)
      obtain ⟨hr, he, hh⟩ := hens
      have hhl : ((ensureRms v st).hessian.getD (zerosLike v)).length = v.length := by
        cases hhe : (ensureRms v st).hessian with
        | none => simp [zerosLike_length]
        | some h₀ => simpa using hh h₀ hhe
      have hvlen : (applyRmsKernel hp bs ⟨v, some g, st⟩).value.length = v.length := by
        simp only [applyRmsKernel, single_tensor_sophiag_rms, signedStep,
          decayParam, emaVec, ratioVec]
        simp [List.length_zipWith, negIf_length, he, hgv, hhl]
      refine ⟨hvlen, ?_⟩
      intro s hs
      simp only [applyRmsKernel, single_tensor_sophiag_rms, Option.some.injEq] at hs
      subst hs
      rw [hvlen]
      refine ⟨by simpa using hr, ?_, ?_⟩
      · simp only [emaVec]
        simp [List.length_zipWith, negIf_length, he, hgv]
      · intro h hh'
        simp only [Option.some.injEq] at hh'
        subst hh'
        exact hhl
  · intro hp bs tp hgl hshape
    rcases tp with ⟨v, gr, st⟩
    cases gr with
    | none => exact ⟨rfl, hshape⟩
    | some g =>
      have hgv : g.values.length = v.length := hgl g rfl
      have hens : RmsShaped v.length (ensureRms v st) :=
        ensureRms_shaped v st (fun s₀ h => hshape s₀ h)
      obtain ⟨hr, he, hh⟩ := hens
      have hhl : ((ensureRms v st).hessian.getD (zerosLike v)).length = v.length := by
        cases hhe : (ensureRms v st).hessian with
        | none => simp [zerosLike_length]
        | some h₀ => simpa using hh h₀ hhe
      have hvlen : (applyOgKernel hp bs ⟨v, some g, st⟩).value.length = v.length := by
        simp only [applyOgKernel, single_tensor_sophiag_og, signedStep,
          decayParam, emaVec, ratioVec]
        simp [List.length_zipWith, negIf_length, he, hgv, hhl]
      refine ⟨hvlen, ?_⟩
      intro s hs
      simp only [applyOgKernel, single_tensor_sophiag_og, Option.some.injEq] at hs
      subst hs
      rw [hvlen]
      refine ⟨by simpa using hr, ?_, ?_⟩
      · simp only [emaVec]
        simp [List.length_zipWith, negIf_length, he, hgv]
      · intro h hh'
        simp only [Option.some.injEq] at hh'
        subst hh'
        exact hhl
  · intro beta2 tp hgl hshape
    rcases tp with ⟨v, gr, st⟩
    cases gr with
    | none => exact ⟨rfl, hshape⟩
    | some g =>
      have hgv : g.values.length = v.length := hgl g rfl
      have hens : BaseShaped v.length (ensureBase v st) :=
        ensureBase_shaped v st (fun s₀ h => hshape s₀ h)
      obtain ⟨he, hh⟩ := hens
      have hhl : ((ensureBase v st).hessian.getD (zerosLike v)).length = v.length := by
        cases hhe : (ensureBase v st).hessian with
        | none => simp [zerosLike_length]
        | some h₀ => simpa using hh h₀ hhe
      refine ⟨rfl, ?_⟩
      intro s hs
      simp only [sophiaGUpdateHessianParam, Option.some.injEq] at hs
      subst hs
      show BaseShaped v.length _
      refine ⟨he, ?_⟩
      intro h hh'
      simp only [Option.some.injEq] at hh'
      subst hh'
      simp only [hessianEMA]
      simp [List.length_zipWith, hhl, hgv]
  · intro beta2 tp hgl hshape
    rcases tp with ⟨v, gr, st⟩
    cases gr with
    | none => exact ⟨rfl, hshape⟩
    | some g =>
      have hgv : g.values.length = v.length := hgl g rfl
      have hens : RmsShaped v.length (ensureRms v st) :=
        ensureRms_shaped v st (fun s₀ h => hshape s₀ h)
      obtain ⟨hr, he, hh⟩ := hens
      have hhl : ((ensureRms v st).hessian.getD (zerosLike v)).length = v.length := by
        cases hhe : (ensureRms v st).hessian with
        | none => simp [zerosLike_length]
        | some h₀ => simpa using hh h₀ hhe
      refine ⟨rfl, ?_⟩
      intro s hs
      simp only [rmsFamilyUpdateHessianParam, Option.some.injEq] at hs
      subst hs
      show RmsShaped v.length _
      refine ⟨hr, he, ?_⟩
      intro h hh'
      simp only [Option.some.injEq] at hh'
      subst hh'
      simp only [hessianEMA]
      simp [List.length_zipWith, hhl, hgv]

/-- C8 (witness): the base kernel conjunct at parameter [1] with dense
gradient [2] and fresh state. -/
theorem buffer_shapes_witness :
    (applyBaseKernel ⟨1, 0, 0, 0, 0, false⟩ 1
        ⟨[1], some ⟨false, [2]⟩, none⟩).value.length =
      ([1] : Tensor).length ∧
    TrackedBaseShaped (applyBaseKernel ⟨1, 0, 0, 0, 0, false⟩ 1
      ⟨[1], some ⟨false, [2]⟩, none⟩) :=
  buffer_shapes.2.2.1 ⟨1, 0, 0, 0, 0, false⟩ 1 ⟨[1], some ⟨false, [2]⟩, none⟩
    (by intro g hg; cases hg; rfl) (by intro s hs; simp at hs)

/-- C8 (counterexample): for a two-entry parameter the rms buffer created
at lazy state initialization of the rms-carrying variants has a single
entry, so it is not shape-identical to its parameter. -/
theorem rms_buffer_shape_counterexample :
    (ensureRms [1, 2] none).rms.length ≠ ([1, 2] : Tensor).length := by
  simp [ensureRms]

/-- Hessian entries of an optional stored base state are nonnegative
whenever the state and its hessian buffer exist. -/
def storedBaseHessNonneg (s : Option StoredBase) : Prop :=
  ∀ s₀, s = some s₀ → ∀ h, s₀.hessian = some h → ∀ x ∈ h, 0 ≤ x

/-- Hessian entries of an optional stored rms-family state are
nonnegative whenever the state and its hessian buffer exist. -/
def storedRmsHessNonneg (s : Option StoredRms) : Prop :=
  ∀ s₀, s = some s₀ → ∀ h, s₀.hessian = some h → ∀ x ∈ h, 0 ≤ x

/-- The hessian EMA maps a nonnegative buffer to a nonnegative buffer
when 0 ≤ beta2 ≤ 1, since the gradient enters only as its square. -/
theorem hessianEMA_nonneg (beta2 : ℝ) (hb0 : 0 ≤ beta2) (hb1 : beta2 ≤ 1) :
    ∀ (h g : Tensor), (∀ x ∈ h, 0 ≤ x) → ∀ x ∈ hessianEMA beta2 h g, 0 ≤ x := by
  intro h
  induction h with
  | nil => intro g _ x hx; simp [hessianEMA] at hx
  | cons a t ih =>
    intro g hh x hx
    cases g with
    | nil => simp [hessianEMA] at hx
    | cons b s =>
      simp only [hessianEMA, List.zipWith_cons_cons, List.mem_cons] at hx
      rcases hx with rfl | hx
      · have ha : 0 ≤ a := hh a (List.mem_cons_self a t)
        have h1 : 0 ≤ a * beta2 := mul_nonneg ha hb0
        have h2 : 0 ≤ (1 - beta2) * (b * b) :=
          mul_nonneg (by linarith) (mul_self_nonneg b)
        linarith
      · exact ih s (fun y hy => hh y (List.mem_cons_of_mem a hy)) x hx

/-- State initialization and backfill keep hessian entries nonnegative. -/
theorem ensureBase_hess_nonneg (p : Tensor) (s : Option StoredBase)
    (hs : storedBaseHessNonneg s) :
    ∀ h, (ensureBase p s).hessian = some h → ∀ x ∈ h, 0 ≤ x := by
  intro h hh x hx
  cases s with
  | none =>
    simp only [ensureBase, Option.getD_none, Option.getD_some,
      Option.some.injEq] at hh
    subst hh
    exact le_of_eq (zerosLike_zero p x hx).symm
  | some s₀ =>
    cases hse : s₀.hessian with
    | none =>
      simp only [ensureBase, Option.getD_some, hse, Option.getD_none,
        Option.some.injEq] at hh
      subst hh
      exact le_of_eq (zerosLike_zero p x hx).symm
    | some h₀ =>
      simp only [ensureBase, Option.getD_some, hse, Option.some.injEq] at hh
      subst hh
      exact hs s₀ rfl h₀ hse x hx

/-- State initialization and backfill keep hessian entries nonnegative in
the rms-carrying variants. -/
theorem ensureRms_hess_nonneg (p : Tensor) (s : Option StoredRms)
    (hs : storedRmsHessNonneg s) :
    ∀ h, (ensureRms p s).hessian = some h → ∀ x ∈ h, 0 ≤ x := by
  intro h hh x hx
  cases s with
  | none =>
    simp only [ensureRms, Option.getD_none, Option.getD_some,
      Option.some.injEq] at hh
    subst hh
    exact le_of_eq (zerosLike_zero p x hx).symm
  | some s₀ =>
    cases hse : s₀.hessian with
    | none =>
      simp only [ensureRms, Option.getD_some, hse, Option.getD_none,
        Option.some.injEq] at hh
      subst hh
      exact le_of_eq (zerosLike_zero p x hx).symm
    | some h₀ =>
      simp only [ensureRms, Option.getD_some, hse, Option.some.injEq] at hh
      subst hh
      exact hs s₀ rfl h₀ hse x hx

/-- The collection sweep of SophiaG.step preserves nonnegative hessians. -/
theorem sophiaGCollect_hess_nonneg :
    ∀ ps : List TrackedBase, (∀ tp ∈ ps, storedBaseHessNonneg tp.st) →
      ∀ tp ∈ (sophiaGCollect ps).1, storedBaseHessNonneg tp.st := by
  intro ps
  induction ps with
  | nil => intro _ tp htp; simp [sophiaGCollect] at htp
  | cons q t ih =>
    intro hps tp htp
    have hq := hps q (List.mem_cons_self q t)
    have ht : ∀ tp ∈ t, storedBaseHessNonneg tp.st :=
      fun tp' h => hps tp' (List.mem_cons_of_mem q h)
    cases hg : q.grad with
    | none =>
      simp only [sophiaGCollect, hg, List.mem_cons] at htp
      rcases htp with rfl | htp
      · exact hq
      · exact ih ht tp htp
    | some g =>
      cases hsp : g.sparse with
      | true =>
        simp only [sophiaGCollect, hg, hsp, if_true, List.mem_cons] at htp
        rcases htp with rfl | htp
        · exact hq
        · exact hps tp (List.mem_cons_of_mem q htp)
      | false =>
        simp only [sophiaGCollect, hg, hsp, Bool.false_eq_true, if_false,
          List.mem_cons] at htp
        rcases htp with rfl | htp
        · intro s₀ heq
          injection heq with heq'
          subst heq'
          exact ensureBase_hess_nonneg q.value q.st hq
        · exact ih ht tp htp

/-- The collection sweep of the rms-carrying variants preserves
nonnegative hessians. -/
theorem rmsFamilyCollect_hess_nonneg :
    ∀ ps : List TrackedRms, (∀ tp ∈ ps, storedRmsHessNonneg tp.st) →
      ∀ tp ∈ (rmsFamilyCollect ps).1, storedRmsHessNonneg tp.st := by
  intro ps
  induction ps with
  | nil => intro _ tp htp; simp [rmsFamilyCollect] at htp
  | cons q t ih =>
    intro hps tp htp
    have hq := hps q (List.mem_cons_self q t)
    have ht : ∀ tp ∈ t, storedRmsHessNonneg tp.st :=
      fun tp' h => hps tp' (List.mem_cons_of_mem q h)
    cases hg : q.grad with
    | none =>
      simp only [rmsFamilyCollect, hg, List.mem_cons] at htp
      rcases htp with rfl | htp
      · exact hq
      · exact ih ht tp htp
    | some g =>
      cases hsp : g.sparse with
      | true =>
        simp only [rmsFamilyCollect, hg, hsp, if_true, List.mem_cons] at htp
        rcases htp with rfl | htp
        · exact hq
        · exact hps tp (List.mem_cons_of_mem q htp)
      | false =>
        simp only [rmsFamilyCollect, hg, hsp, Bool.false_eq_true, if_false,
          List.mem_cons] at htp
        rcases htp with rfl | htp
        · intro s₀ heq
          injection heq with heq'
          subst heq'
          exact ensureRms_hess_nonneg q.value q.st hq
        · exact ih ht tp htp

/-- The base kernel never writes the hessian buffer, so nonnegativity is
preserved. -/
theorem applyBaseKernel_hess_nonneg (hp : Hyper) (bs : ℝ) (tp : TrackedBase)
    (htp : storedBaseHessNonneg tp.st) :
    storedBaseHessNonneg (applyBaseKernel hp bs tp).st := by
  rcases tp with ⟨v, gr, st⟩
  cases gr with
  | none => exact htp
  | some g =>
    intro s₀ heq h hh x hx
    simp only [applyBaseKernel, single_tensor_sophiag, Option.some.injEq] at heq
    subst heq
    simp only [Option.some.injEq] at hh
    subst hh
    exact ensureBase_hess_nonneg v st htp _ rfl x hx

/-- The rms kernel never writes the hessian buffer. -/
theorem applyRmsKernel_hess_nonneg (hp : Hyper) (bs : ℝ) (tp : TrackedRms)
    (htp : storedRmsHessNonneg tp.st) :
    storedRmsHessNonneg (applyRmsKernel hp bs tp).st := by
  rcases tp with ⟨v, gr, st⟩
  cases gr with
  | none => exact htp
  | some g =>
    intro s₀ heq h hh x hx
    simp only [applyRmsKernel, single_tensor_sophiag_rms, Option.some.injEq] at heq
    subst heq
    simp only [Option.some.injEq] at hh
    subst hh
    exact ensureRms_hess_nonneg v st htp _ rfl x hx

/-- The og kernel never writes the hessian buffer. -/
theorem applyOgKernel_hess_nonneg (hp : Hyper) (bs : ℝ) (tp : TrackedRms)
    (htp : storedRmsHessNonneg tp.st) :
    storedRmsHessNonneg (applyOgKernel hp bs tp).st := by
  rcases tp with ⟨v, gr, st⟩
  cases gr with
  | none => exact htp
  | some g =>
    intro s₀ heq h hh x hx
    simp only [applyOgKernel, single_tensor_sophiag_og, Option.some.injEq] at heq
    subst heq
    simp only [Option.some.injEq] at hh
    subst hh
    exact ensureRms_hess_nonneg v st htp _ rfl x hx

/-- One update_hessian call preserves nonnegative hessians. -/
theorem sophiaGUpdateHessianParam_hess_nonneg (beta2 : ℝ) (hb0 : 0 ≤ beta2)
    (hb1 : beta2 ≤ 1) (tp : TrackedBase) (htp : storedBaseHessNonneg tp.st) :
    storedBaseHessNonneg (sophiaGUpdateHessianParam beta2 tp).st := by
  rcases tp with ⟨v, gr, st⟩
  cases gr with
  | none => exact htp
  | some g =>
    intro s₀ heq h hh x hx
    simp only [sophiaGUpdateHessianParam, Option.some.injEq] at heq
    subst heq
    simp only [Option.some.injEq] at hh
    subst hh
    exact hessianEMA_nonneg beta2 hb0 hb1 _ g.values
      (ensureBase_hess_nonneg v st htp _ rfl) x hx

/-- One update_hessian call preserves nonnegative hessians in the
rms-carrying variants. -/
theorem rmsFamilyUpdateHessianParam_hess_nonneg (beta2 : ℝ) (hb0 : 0 ≤ beta2)
    (hb1 : beta2 ≤ 1) (tp : TrackedRms) (htp : storedRmsHessNonneg tp.st) :
    storedRmsHessNonneg (rmsFamilyUpdateHessianParam beta2 tp).st := by
  rcases tp with ⟨v, gr, st⟩
  cases gr with
  | none => exact htp
  | some g =>
    intro s₀ heq h hh x hx
    simp only [rmsFamilyUpdateHessianParam, Option.some.injEq] at heq
    subst heq
    simp only [Option.some.injEq] at hh
    subst hh
    exact hessianEMA_nonneg beta2 hb0 hb1 _ g.values
      (ensureRms_hess_nonneg v st htp _ rfl) x hx

/-- A whole SophiaG.step call preserves nonnegative hessians. -/
theorem sophiaGStep_hess_nonneg (hp : Hyper) (bs : ℝ) (ps : List TrackedBase)
    (hps : ∀ tp ∈ ps, storedBaseHessNonneg tp.st) :
    ∀ tp ∈ (sophiaGStep hp bs ps).1, storedBaseHessNonneg tp.st := by
  intro tp htp
  have hcol := sophiaGCollect_hess_nonneg ps hps
  simp only [sophiaGStep] at htp
  cases he : (sophiaGCollect ps).2 with
  | some msg =>
    rw [he] at htp
    exact hcol tp htp
  | none =>
    rw [he] at htp
    simp only [List.mem_map] at htp
    obtain ⟨tq, htq, rfl⟩ := htp
    exact applyBaseKernel_hess_nonneg hp bs tq (hcol tq htq)

/-- A whole SophiaG_RMS.step call preserves nonnegative hessians. -/
theorem sophiaGRmsStep_hess_nonneg (hp : Hyper) (bs : ℝ) (ps : List TrackedRms)
    (hps : ∀ tp ∈ ps, storedRmsHessNonneg tp.st) :
    ∀ tp ∈ (sophiaGRmsStep hp bs ps).1, storedRmsHessNonneg tp.st := by
  intro tp htp
  have hcol := rmsFamilyCollect_hess_nonneg ps hps
  simp only [sophiaGRmsStep] at htp
  cases he : (rmsFamilyCollect ps).2 with
  | some msg =>
    rw [he] at htp
    exact hcol tp htp
  | none =>
    rw [he] at htp
    simp only [List.mem_map] at htp
    obtain ⟨tq, htq, rfl⟩ := htp
    exact applyRmsKernel_hess_nonneg hp bs tq (hcol tq htq)

/-- A whole SophiaG_OG.step call preserves nonnegative hessians. -/
theorem sophiaGOgStep_hess_nonneg (hp : Hyper) (bs : ℝ) (ps : List TrackedRms)
    (hps : ∀ tp ∈ ps, storedRmsHessNonneg tp.st) :
    ∀ tp ∈ (sophiaGOgStep hp bs ps).1, storedRmsHessNonneg tp.st := by
  intro tp htp
  have hcol := rmsFamilyCollect_hess_nonneg ps hps
  simp only [sophiaGOgStep] at htp
  cases he : (rmsFamilyCollect ps).2 with
  | some msg =>
    rw [he] at htp
    exact hcol tp htp
  | none =>
    rw [he] at htp
    simp only [List.mem_map] at htp
    obtain ⟨tq, htq, rfl⟩ := htp
    exact applyOgKernel_hess_nonneg hp bs tq (hcol tq htq)

/-- One external call to the base optimizer: the caller installs fresh
gradients (p.grad assignment between invocations) and runs either step
or update_hessian. -/
inductive BaseOp where
  | stepOp (hp : Hyper) (bs : ℝ) (gs : List (Option Grad))
  | hessOp (beta2 : ℝ) (gs : List (Option Grad))

/-- The caller writing gradients onto the tracked base parameters. -/
def setGradsBase (gs : List (Option Grad)) (ps : List TrackedBase) :
    List TrackedBase :=
  List.zipWith (fun g tp => ⟨tp.value, g, tp.st⟩) gs ps

/-- Executing a call sequence against the SophiaG optimizer. -/
def runBase : List BaseOp → List TrackedBase → List TrackedBase
  | [], ps => ps
  | BaseOp.stepOp hp bs gs :: ops, ps =>
      runBase ops (sophiaGStep hp bs (setGradsBase gs ps)).1
  | BaseOp.hessOp b gs :: ops, ps =>
      runBase ops (sophiaGUpdateHessian b (setGradsBase gs ps))

/-- The constructor-validated range of beta2 for a hessian update call. -/
def baseOpValid : BaseOp → Prop
  | BaseOp.stepOp _ _ _ => True
  | BaseOp.hessOp b _ => 0 ≤ b ∧ b < 1

/-- The rms-carrying variant performing a step. -/
inductive RmsVariant where
  | rms
  | og
  | rmsd

/-- One external call to an rms-carrying optimizer. -/
inductive RmsOp where
  | stepOp (k : RmsVariant) (hp : Hyper) (bs : ℝ) (gs : List (Option Grad))
  | hessOp (beta2 : ℝ) (gs : List (Option Grad))

/-- The caller writing gradients onto the tracked rms-family parameters. -/
def setGradsRms (gs : List (Option Grad)) (ps : List TrackedRms) :
    List TrackedRms :=
  List.zipWith (fun g tp => ⟨tp.value, g, tp.st⟩) gs ps

/-- The step entry point of the selected rms-carrying variant. -/
def variantStep : RmsVariant → Hyper → ℝ → List TrackedRms →
    List TrackedRms × Option String
  | RmsVariant.rms => sophiaGRmsStep
  | RmsVariant.og => sophiaGOgStep
  | RmsVariant.rmsd => sophiaGRmsdStep

/-- Executing a call sequence against an rms-carrying optimizer. -/
def runRmsFamily : List RmsOp → List TrackedRms → List TrackedRms
  | [], ps => ps
  | RmsOp.stepOp k hp bs gs :: ops, ps =>
      runRmsFamily ops (variantStep k hp bs (setGradsRms gs ps)).1
  | RmsOp.hessOp b gs :: ops, ps =>
      runRmsFamily ops (rmsFamilyUpdateHessian b (setGradsRms gs ps))

/-- The constructor-validated range of beta2 for a hessian update call. -/
def rmsOpValid : RmsOp → Prop
  | RmsOp.stepOp _ _ _ _ => True
  | RmsOp.hessOp b _ => 0 ≤ b ∧ b < 1

/-- Installing gradients does not touch stored state. -/
theorem setGradsBase_hess_nonneg (gs : List (Option Grad)) :
    ∀ ps : List TrackedBase, (∀ tp ∈ ps, storedBaseHessNonneg tp.st) →
      ∀ tp ∈ setGradsBase gs ps, storedBaseHessNonneg tp.st := by
  induction gs with
  | nil => intro ps _ tp htp; simp [setGradsBase] at htp
  | cons g gt ih =>
    intro ps hps tp htp
    cases ps with
    | nil => simp [setGradsBase] at htp
    | cons q t =>
      simp only [setGradsBase, List.zipWith_cons_cons, List.mem_cons] at htp
      rcases htp with rfl | htp
      · exact hps q (List.mem_cons_self q t)
      · exact ih t (fun tp' h => hps tp' (List.mem_cons_of_mem q h)) tp
          (by simpa [setGradsBase] using htp)

/-- Installing gradients does not touch stored state in the rms-family. -/
theorem setGradsRms_hess_nonneg (gs : List (Option Grad)) :
    ∀ ps : List TrackedRms, (∀ tp ∈ ps, storedRmsHessNonneg tp.st) →
      ∀ tp ∈ setGradsRms gs ps, storedRmsHessNonneg tp.st := by
  induction gs with
  | nil => intro ps _ tp htp; simp [setGradsRms] at htp
  | cons g gt ih =>
    intro ps hps tp htp
    cases ps with
    | nil => simp [setGradsRms] at htp
    | cons q t =>
      simp only [setGradsRms, List.zipWith_cons_cons, List.mem_cons] at htp
      rcases htp with rfl | htp
      · exact hps q (List.mem_cons_self q t)
      · exact ih t (fun tp' h => hps tp' (List.mem_cons_of_mem q h)) tp
          (by simpa [setGradsRms] using htp)

/-- C10: in every variant, every entry of every hessian buffer stays
nonnegative across any sequence of step and update_hessian calls with
beta2 in [0,1): buffers are created and backfilled as zeros, the hessian
EMA keeps nonnegative buffers nonnegative, and step never writes the
hessian buffer. -/
theorem hessian_nonneg_invariant :
    (∀ (ops : List BaseOp) (ps : List TrackedBase),
        (∀ op ∈ ops, baseOpValid op) →
        (∀ tp ∈ ps, storedBaseHessNonneg tp.st) →
        ∀ tp ∈ runBase ops ps, storedBaseHessNonneg tp.st) ∧
    (∀ (ops : List RmsOp) (ps : List TrackedRms),
        (∀ op ∈ ops, rmsOpValid op) →
        (∀ tp ∈ ps, storedRmsHessNonneg tp.st) →
        ∀ tp ∈ runRmsFamily ops ps, storedRmsHessNonneg tp.st) := by
  constructor
  · intro ops
    induction ops with
    | nil => intro ps _ hps tp htp; exact hps tp htp
    | cons op t ih =>
      intro ps hops hps
      have hop := hops op (List.mem_cons_self op t)
      have ht := fun op' h => hops op' (List.mem_cons_of_mem op h)
      cases op with
      | stepOp hp bs gs =>
        exact ih _ ht (sophiaGStep_hess_nonneg hp bs _
          (setGradsBase_hess_nonneg gs ps hps))
      | hessOp b gs =>
        obtain ⟨hb0, hb1⟩ := hop
        refine ih _ ht ?_
        intro tp htp
        simp only [sophiaGUpdateHessian, List.mem_map] at htp
        obtain ⟨tq, htq, rfl⟩ := htp
        exact sophiaGUpdateHessianParam_hess_nonneg b hb0 (le_of_lt hb1) tq
          (setGradsBase_hess_nonneg gs ps hps tq htq)
  · intro ops
    induction ops with
    | nil => intro ps _ hps tp htp; exact hps tp htp
    | cons op t ih =>
      intro ps hops hps
      have hop := hops op (List.mem_cons_self op t)
      have ht := fun op' h => hops op' (List.mem_cons_of_mem op h)
      cases op with
      | stepOp k hp bs gs =>
        refine ih _ ht ?_
        cases k with
        | rms =>
          exact sophiaGRmsStep_hess_nonneg hp bs _
            (setGradsRms_hess_nonneg gs ps hps)
        | og =>
          exact sophiaGOgStep_hess_nonneg hp bs _
            (setGradsRms_hess_nonneg gs ps hps)
        | rmsd =>
          exact sophiaGRmsStep_hess_nonneg hp bs _
            (setGradsRms_hess_nonneg gs ps hps)
      | hessOp b gs =>
        obtain ⟨hb0, hb1⟩ := hop
        refine ih _ ht ?_
        intro tp htp
        simp only [rmsFamilyUpdateHessian, List.mem_map] at htp
        obtain ⟨tq, htq, rfl⟩ := htp
        exact rmsFamilyUpdateHessianParam_hess_nonneg b hb0 (le_of_lt hb1) tq
          (setGradsRms_hess_nonneg gs ps hps tq htq)

/-- C10 (witness): a fresh single parameter after one update_hessian call
with beta2 = 1/2 and gradient [3] has a nonnegative hessian buffer. -/
theorem hessian_nonneg_invariant_witness :
    storedBaseHessNonneg
      (sophiaGUpdateHessianParam (1/2) ⟨[1], some ⟨false, [3]⟩, none⟩).st :=
  hessian_nonneg_invariant.1 [BaseOp.hessOp (1/2) [some ⟨false, [3]⟩]]
    [⟨[1], none, none⟩]
    (by intro op hop; simp at hop; subst hop; exact ⟨by norm_num, by norm_num⟩)
    (by intro tp htp; simp at htp; subst htp; intro s hs; cases hs)
    (sophiaGUpdateHessianParam (1/2) ⟨[1], some ⟨false, [3]⟩, none⟩)
    (by simp [runBase, sophiaGUpdateHessian, setGradsBase])

end

end Sophia
